import Mathlib

/-!
Verification of the aprstx APRS gateway daemon against its specification.

The Rust sources are embedded shallowly: strings are lists of characters
(`Str`), bytes are natural numbers reduced modulo 256 where the Rust code
can overflow, and every fallible operation returns an `Option`.  Stateful
code (the router's and digipeater's dedup tables) is modelled by explicit
state passing, with monotonic time as a `Nat` argument measured in seconds
(mirroring `Instant` arithmetic in the source).

Each definition is translated from the named Rust item; deviations forced
by the embedding (ASCII text, the opaque standard-library hasher) are
documented at the definition site.
-/

namespace Aprstx

/-- Strings are modelled as lists of characters. -/
abbrev Str := List Char

/-- `str.starts_with(prefix)` on character lists. -/
def strStartsWith : Str → Str → Bool
  | _, [] => true
  | [], _ :: _ => false
  | a :: as, b :: bs => a == b && strStartsWith as bs

/-- `str.contains(substring)`: some suffix of the haystack starts with the needle. -/
def strContains : Str → Str → Bool
  | [], needle => needle.isEmpty
  | h :: rest, needle => strStartsWith (h :: rest) needle || strContains rest needle

/-- `str.contains(char)`. -/
def strContainsChar (s : Str) (c : Char) : Bool := s.contains c

/-- `str.to_uppercase()`.  The Rust function is Unicode-aware; all strings
handled by this program (callsigns, WIDE aliases) are ASCII, where the two
agree. -/
def toUpperStr (s : Str) : Str := s.map Char.toUpper

/-- `str::split(sep)`: splits into the (always non-empty) list of parts. -/
def splitChar (sep : Char) : Str → List Str
  | [] => [[]]
  | c :: rest =>
    let parts := splitChar sep rest
    if c == sep then [] :: parts
    else match parts with
      | [] => [[c]]
      | p :: ps => (c :: p) :: ps

/-- `str.find(sep)` followed by splitting at the separator: the part before
the first occurrence and the part after it (the separator removed), or
`none` when the separator does not occur. -/
def splitFirst (sep : Char) : Str → Option (Str × Str)
  | [] => none
  | c :: rest =>
    if c == sep then some ([], rest)
    else match splitFirst sep rest with
      | none => none
      | some (pre, post) => some (c :: pre, post)

/-- `str.trim()`: strip leading and trailing whitespace. -/
def trimStr (s : Str) : Str :=
  (s.dropWhile Char.isWhitespace).reverse.dropWhile Char.isWhitespace |>.reverse

/-- UTF-8 byte length of one character, as stored in a Rust `String`. -/
def charByteLen (c : Char) : Nat :=
  if c.toNat < 0x80 then 1
  else if c.toNat < 0x800 then 2
  else if c.toNat < 0x10000 then 3
  else 4

/-- `str.len()`: the UTF-8 byte length Rust reports for a string. -/
def byteLen (s : Str) : Nat := (s.map charByteLen).sum

/-- Decimal rendering of a natural number, as `format!("{}")` produces. -/
def natStr (n : Nat) : Str := (Nat.repr n).data

/-- Decimal rendering of an integer, as `format!("{}")` produces. -/
def intStr (i : Int) : Str := (Int.repr i).data

/-- `str::parse::<u8>()`: optional leading `+`, then ASCII digits; errors on
an empty digit string, a non-digit, or a value above 255. -/
def parseU8 (s : Str) : Option Nat :=
  let digits := match s with
    | '+' :: rest => rest
    | other => other
  if digits.isEmpty then none
  else if digits.all Char.isDigit then
    let v := digits.foldl (fun acc c => acc * 10 + (c.toNat - 48)) 0
    if v ≤ 255 then some v else none
  else none

/-- `str::parse::<i32>()`: optional sign, ASCII digits, 32-bit range check. -/
def parseI32 (s : Str) : Option Int :=
  let (neg, digits) := match s with
    | '+' :: rest => (false, rest)
    | '-' :: rest => (true, rest)
    | other => (false, other)
  if digits.isEmpty then none
  else if digits.all Char.isDigit then
    let v : Nat := digits.foldl (fun acc c => acc * 10 + (c.toNat - 48)) 0
    if neg then
      if v ≤ 2 ^ 31 then some (-(v : Int)) else none
    else
      if v < 2 ^ 31 then some (v : Int) else none
  else none

/-! ## Packet model (`src/aprs/packet.rs`) -/

/-- `CallSign` from `src/aprs/packet.rs`: base call text, SSID (a `u8` in the
source), and the has-been-repeated flag. -/
structure CallSign where
  call : Str
  ssid : Nat
  digipeated : Bool
deriving DecidableEq, Repr

/-- `DataType` from `src/aprs/packet.rs`. -/
inductive DataType where
  | position | status | message | object | item | micE
  | telemetry | weather | userDefined | thirdParty | invalid
deriving DecidableEq, Repr

/-- `CallSign::new`: uppercases the text, stores the SSID, clears the flag. -/
def CallSign.new (call : Str) (ssid : Nat) : CallSign :=
  { call := toUpperStr call, ssid := ssid, digipeated := false }

/-- The `strip_suffix('*')` step of `CallSign::parse`: the remaining text
and whether a trailing `*` was removed. -/
def stripStar (input : Str) : Str × Bool :=
  if input.getLast? = some '*' then (input.dropLast, true) else (input, false)

/-- `CallSign::parse` from `src/aprs/packet.rs`: strips a trailing `*` into
the digipeated flag, splits on `-`, rejects an empty base, parses the SSID
with `parse::<u8>().unwrap_or(0)`, and rejects SSIDs above 15. -/
def CallSign.parse (input : Str) : Option CallSign :=
  let stripped := stripStar input
  let parts := splitChar '-' stripped.1
  match parts with
  | [] => none
  | p0 :: rest =>
    if p0.isEmpty then none
    else
      let ssid := match rest with
        | [] => 0
        | p1 :: _ => (parseU8 p1).getD 0
      if ssid > 15 then none
      else some { call := toUpperStr p0, ssid := ssid, digipeated := stripped.2 }

/-- `impl fmt::Display for CallSign`. -/
def CallSign.render (c : CallSign) : Str :=
  if c.ssid = 0 then c.call ++ (if c.digipeated then ['*'] else [])
  else c.call ++ '-' :: natStr c.ssid ++ (if c.digipeated then ['*'] else [])

/-- `AprsPacket` from `src/aprs/packet.rs`.  The information field is ASCII
text modelled as characters; `timestamp` abstracts `DateTime<Utc>` and `raw`
the optional raw bytes. -/
structure AprsPacket where
  source : CallSign
  destination : CallSign
  path : List CallSign
  dataType : DataType
  information : Str
  timestamp : Nat
  raw : Option (List Nat)
deriving DecidableEq, Repr

/-- `AprsPacket::detect_data_type`. -/
def detectDataType (info : Str) : DataType :=
  match info with
  | [] => .invalid
  | c :: _ =>
    if c = '!' ∨ c = '=' then .position
    else if c = '/' ∨ c = '@' then .position
    else if c = '>' then .status
    else if c = ':' then .message
    else if c = ';' then .object
    else if c = ')' then .item
    else if c = '`' ∨ c = '\'' then .micE
    else if c = 'T' then .telemetry
    else if c = '_' then .weather
    else if c = '{' then .userDefined
    else if c = '}' then .thirdParty
    else .invalid

/-- `AprsPacket::has_rfonly`. -/
def AprsPacket.hasRfonly (p : AprsPacket) : Bool :=
  strContains p.information "RFONLY".data

/-- `AprsPacket::has_nogate`. -/
def AprsPacket.hasNogate (p : AprsPacket) : Bool :=
  strContains p.information "NOGATE".data

/-- A legal callsign character per the data model: an uppercase ASCII
letter (code 65..90) or a decimal digit (code 48..57). -/
@[reducible]
def validCallChar (c : Char) : Prop :=
  (65 ≤ c.toNat ∧ c.toNat ≤ 90) ∨ (48 ≤ c.toNat ∧ c.toNat ≤ 57)

/-- A valid callsign per the data model: 1..6 uppercase alphanumerics and
an SSID in 0..=15. -/
@[reducible]
def CallSign.valid (c : CallSign) : Prop :=
  c.call ≠ [] ∧ c.call.length ≤ 6 ∧ (∀ ch ∈ c.call, validCallChar ch) ∧ c.ssid ≤ 15

/-- `impl fmt::Display for AprsPacket`: `SRC>DEST[,HOP…]:INFO`. -/
def packetRender (p : AprsPacket) : Str :=
  CallSign.render p.source ++ '>' :: CallSign.render p.destination ++
    (p.path.map (fun hop => ',' :: CallSign.render hop)).flatten ++
    ':' :: p.information

/-! ## Digipeater (`src/digipeater.rs`) -/

/-- `DigipeaterConfig` from `src/config.rs` (`viscous_delay: u32`,
`max_hops: u8`). -/
structure DigipeaterConfig where
  enabled : Bool
  mycall : Str
  aliases : List Str
  viscous_delay : Nat
  max_hops : Nat
deriving DecidableEq, Repr

/-- `is_wide_pattern` from `src/digipeater.rs`: the part before the first
dash must be 5 bytes long, start with `WIDE`, and have a numeric fifth
character; the suffix must `parse::<u8>()` into `1..=7`.  (`char::is_numeric`
is modelled by `Char.isDigit`: the byte-length-5 check forces the fifth
character to be a single byte, and on single-byte characters the two agree.) -/
def is_wide_pattern (call : Str) : Bool :=
  match splitFirst '-' call with
  | none => false
  | some (pre, suffix) =>
    byteLen pre == 5 && strStartsWith pre "WIDE".data &&
    (match pre.get? 4 with
      | some c => c.isDigit
      | none => false) &&
    (match parseU8 suffix with
      | some n => decide (n > 0) && decide (n ≤ 7)
      | none => false)

/-- `parse_wide_pattern` from `src/digipeater.rs`: split at the first dash
and parse the suffix as `u8`; on failure return the whole call with 0. -/
def parse_wide_pattern (call : Str) : Str × Nat :=
  match splitFirst '-' call with
  | some (pre, suffix) =>
    match parseU8 suffix with
    | some n => (pre, n)
    | none => (call, 0)
  | none => (call, 0)

/-- The hop-scanning loop of `should_digipeat`: hops whose call text
contains `*` are skipped; the first one without decides admission. -/
def digiAdmitLoop (config : DigipeaterConfig) : List CallSign → Bool
  | [] => false
  | hop :: rest =>
    if strContainsChar hop.call '*' then digiAdmitLoop config rest
    else
      (hop.call == config.mycall || config.aliases.contains hop.call) ||
        is_wide_pattern hop.call

/-- `should_digipeat` from `src/digipeater.rs`.  Hops are counted as used
when their call text contains `*` (the `digipeated` flag is not consulted). -/
def should_digipeat (config : DigipeaterConfig) (packet : AprsPacket) : Bool :=
  if !config.enabled then false
  else
    let digi_count := (packet.path.filter (fun hop => strContainsChar hop.call '*')).length
    if digi_count ≥ config.max_hops then false
    else digiAdmitLoop config packet.path

/-- The path-rewriting loop of `process_packet`, with the `found_us`
accumulator threaded through; returns the new path and the final flag. -/
def rewriteLoop (config : DigipeaterConfig) : List CallSign → Bool → List CallSign × Bool
  | [], found_us => ([], found_us)
  | hop :: rest, found_us =>
    if !found_us && !strContainsChar hop.call '*' then
      if hop.call == config.mycall || config.aliases.contains hop.call then
        let (tail, f) := rewriteLoop config rest true
        (CallSign.new (config.mycall ++ ['*']) 0 :: tail, f)
      else if is_wide_pattern hop.call then
        let (wide_type, n) := parse_wide_pattern hop.call
        let (tail, f) := rewriteLoop config rest true
        if n > 1 then
          (CallSign.new (config.mycall ++ ['*']) 0 ::
             CallSign.new (wide_type ++ '-' :: natStr (n - 1)) 0 :: tail, f)
        else
          (CallSign.new (config.mycall ++ ['*']) 0 :: tail, f)
      else
        let (tail, f) := rewriteLoop config rest found_us
        (hop :: tail, f)
    else
      let (tail, f) := rewriteLoop config rest found_us
      (hop :: tail, f)

/-- Association-list lookup standing in for `HashMap::get`. -/
def lookupAssoc (m : List (Str × Nat)) (k : Str) : Option Nat :=
  match m.find? (fun e => e.1 == k) with
  | some e => some e.2
  | none => none

/-- Association-list insert standing in for `HashMap::insert` (overwrites). -/
def insertAssoc (m : List (Str × Nat)) (k : Str) (v : Nat) : List (Str × Nat) :=
  (k, v) :: m.filter (fun e => e.1 != k)

/-- `process_packet` from `src/digipeater.rs`: per-source-content dedup
(key `source>information`, window `viscous_delay`, times in whole seconds as
`Instant::elapsed().as_secs()` yields), then the path rewrite; emits the
rewritten packet only when `found_us` was set. -/
def process_packet (config : DigipeaterConfig) (packet : AprsPacket)
    (recent : List (Str × Nat)) (now : Nat) : Option AprsPacket × List (Str × Nat) :=
  let packet_hash := CallSign.render packet.source ++ '>' :: packet.information
  let dup := match lookupAssoc recent packet_hash with
    | some last_seen => decide (now - last_seen < config.viscous_delay)
    | none => false
  if dup then (none, recent)
  else
    let recent := insertAssoc recent packet_hash now
    let (new_path, found_us) := rewriteLoop config packet.path false
    if found_us then (some { packet with path := new_path }, recent)
    else (none, recent)

/-! ## Router (`src/router.rs`) -/

/-- `PacketSource` from `src/router.rs`. -/
inductive PacketSource where
  | serialPort (name : Str)
  | aprsIs
  | internal
deriving DecidableEq, Repr

/-- `RoutedPacket` from `src/router.rs`. -/
structure RoutedPacket where
  packet : AprsPacket
  source : PacketSource
deriving DecidableEq, Repr

/-- `AprsIsConfig` from `src/config.rs`. -/
structure AprsIsConfig where
  server : Str
  port : Nat
  callsign : Str
  passcode : Str
  filter : Option Str
  tx_enable : Bool
  rx_enable : Bool
deriving DecidableEq, Repr

/-- The slice of `Config` (`src/config.rs`) the router consults. -/
structure Config where
  mycall : Str
  aprs_is : Option AprsIsConfig
  digipeater : DigipeaterConfig
deriving DecidableEq, Repr

/-- One egress event of the router: a send on one of its four outbound
channels.  Channel sends are modelled as always succeeding. -/
inductive Egress where
  | rfEgress (p : RoutedPacket)
  | isEgress (p : RoutedPacket)
  | digiFeed (p : RoutedPacket)
  | msgFeed (p : RoutedPacket)
deriving DecidableEq, Repr

/-- Modelled from the spec: `calculate_packet_hash` in `src/router.rs` uses
`std::collections::hash_map::DefaultHasher`, whose algorithm lives in the
Rust standard library, outside this repository; the spec requires only a
64-bit hash of the textual form, modelled here as FNV-1a. -/
def calculate_packet_hash (packet : Str) : Nat :=
  packet.foldl (fun h c => ((h ^^^ c.toNat) * 0x100000001b3) % 2 ^ 64) 0xcbf29ce484222325

/-- `PacketRouter::is_duplicate`: the textual-form hash occurs in the dedup
list with an age strictly below `viscous_delay` seconds. -/
def is_duplicate (config : Config) (recent : List (Nat × Nat)) (now : Nat)
    (packet_str : Str) : Bool :=
  let hash := calculate_packet_hash packet_str
  recent.any (fun e => e.1 == hash && decide (now - e.2 < config.digipeater.viscous_delay))

/-- `PacketRouter::store_packet_hash`: push the hash, and when the list
exceeds 1000 entries drop the oldest 100 (`drain(0..100)`). -/
def store_packet_hash (recent : List (Nat × Nat)) (now : Nat) (packet_str : Str) :
    List (Nat × Nat) :=
  let recent := recent ++ [(calculate_packet_hash packet_str, now)]
  if recent.length > 1000 then recent.drop 100 else recent

/-- `PacketRouter::should_gate_to_rf`. -/
def should_gate_to_rf (config : Config) (packet : AprsPacket) : Bool :=
  if packet.path.any (fun p => strContains p.call "TCPIP".data) then false
  else if packet.source.call == config.mycall then false
  else true

/-- `PacketRouter::route_packet`: dedup, filter (the regex engine is out of
scope and abstracted as the predicate `filter`), then fan-out by provenance
tag; finally the hash is recorded.  Returns the egress events in the order
the source emits them, and the new dedup list.  The fan-out stage of
`route_packet` is split out as `route_events`. -/
def route_events (config : Config) (rp : RoutedPacket) : List Egress :=
  let is_rf_only := rp.packet.hasRfonly
  let is_no_gate := rp.packet.hasNogate
  match rp.source with
  | .serialPort _ =>
    (if config.digipeater.enabled then [Egress.digiFeed rp] else []) ++
    (if !is_rf_only && !is_no_gate then
      match config.aprs_is with
      | some aprs_is => if aprs_is.rx_enable then [Egress.isEgress rp] else []
      | none => []
    else []) ++
    (if rp.packet.destination.call == config.mycall then [Egress.msgFeed rp] else [])
  | .aprsIs =>
    match config.aprs_is with
    | some aprs_is =>
      if aprs_is.tx_enable && should_gate_to_rf config rp.packet then
        [Egress.rfEgress rp]
      else []
    | none => []
  | .internal =>
    Egress.rfEgress rp ::
    (match config.aprs_is with
      | some aprs_is => if aprs_is.tx_enable then [Egress.isEgress rp] else []
      | none => [])

/-- `PacketRouter::route_packet`: dedup drop, filter drop, otherwise emit
the fan-out events of `route_events` and record the textual-form hash. -/
def route_packet (config : Config) (filter : AprsPacket → Bool)
    (recent : List (Nat × Nat)) (now : Nat) (rp : RoutedPacket) :
    List Egress × List (Nat × Nat) :=
  let packet_str := packetRender rp.packet
  if is_duplicate config recent now packet_str then ([], recent)
  else if !filter rp.packet then ([], recent)
  else (route_events config rp, store_packet_hash recent now packet_str)

/-! ## APRS-IS client (`src/network.rs`) -/

/-- `calculate_passcode` from `src/network.rs`: XOR-fold over the uppercased
base call (the part before the first dash), `(ch<<8)` at even indices and
`ch` at odd ones, starting from `0x73E2`, masked with `0x7FFF`.  All
intermediate values stay far below `i32::MAX`, so `Nat` arithmetic is
faithful. -/
def calculate_passcode (callsign : Str) : Nat :=
  let call_upper := toUpperStr ((splitChar '-' callsign).headD [])
  let hash := (call_upper.enum.foldl
    (fun h ic =>
      if ic.1 % 2 = 0 then h ^^^ (ic.2.toNat <<< 8)
      else h ^^^ ic.2.toNat)
    0x73e2)
  hash &&& 0x7fff

/-- The passcode selection in `connect_and_run`: the literal `"-1"` stays
`-1`, a string parsing as `i32` is passed through, anything else is replaced
by the computed passcode. -/
def passcode_of (config : AprsIsConfig) : Int :=
  if config.passcode = "-1".data then -1
  else (parseI32 config.passcode).getD (calculate_passcode config.callsign)

/-- The login line `connect_and_run` writes:
`user <CALL> pass <PASS> vers aprstx 0.1.0[ filter <F>]\r\n`. -/
def login_line (config : AprsIsConfig) : Str :=
  "user ".data ++ config.callsign ++ " pass ".data ++ intStr (passcode_of config) ++
    " vers aprstx 0.1.0".data ++
    (match config.filter with
      | some f => " filter ".data ++ f
      | none => []) ++
    "\r\n".data

/-! ## Message handler (`src/message.rs`) -/

/-- The decision `MessageHandler::handle_message` reaches for one packet:
ignore it, treat the text after byte 11 as an ack/rej, or as an incoming
message. -/
inductive MsgDecision where
  | ignored
  | ackRej (remaining : Str)
  | incoming (remaining : Str)
deriving DecidableEq, Repr

/-- `MessageHandler::handle_message` from `src/message.rs`: requires a
leading `:` and at least 11 bytes, takes bytes 1..10 trimmed as the
addressee (never inspecting byte 10), requires the addressee to equal or
start with `mycall`, and splits off everything from byte 11 as the text.
Byte slicing coincides with character slicing on the ASCII information
fields the theorems quantify over. -/
def handle_message (mycall : Str) (info : Str) : MsgDecision :=
  if !strStartsWith info ":".data || byteLen info < 11 then .ignored
  else
    let addressee := trimStr ((info.drop 1).take 9)
    if addressee != mycall && !strStartsWith addressee mycall then .ignored
    else
      let remaining := info.drop 11
      if strStartsWith remaining "ack".data || strStartsWith remaining "rej".data then
        .ackRej remaining
      else .incoming remaining

/-! ## KISS framing (`src/serial/kiss.rs`) -/

/-- Decoder state of `KissCodec` (`decode_buf`, `in_frame`, `escaped`). -/
structure KissState where
  buf : List Nat
  inFrame : Bool
  escaped : Bool
deriving DecidableEq, Repr

/-- `KissCodec::decode`, run over a byte list: returns the payload of the
first complete port-0 data frame, or `none` when the input is exhausted.
Mirrors the source byte-for-byte: escape handling, frame reset on a bad
escape, silent consumption of non-data frames and empty frames. -/
def kissDecode (st : KissState) : List Nat → Option (List Nat)
  | [] => none
  | byte :: rest =>
    if st.escaped then
      if byte = 0xDC then kissDecode { st with buf := st.buf ++ [0xC0], escaped := false } rest
      else if byte = 0xDD then kissDecode { st with buf := st.buf ++ [0xDB], escaped := false } rest
      else kissDecode { buf := [], inFrame := false, escaped := false } rest
    else if byte = 0xC0 then
      if st.inFrame ∧ st.buf ≠ [] then
        let frame := st.buf
        let st' : KissState := { buf := [], inFrame := false, escaped := false }
        match frame with
        | [] => kissDecode st' rest
        | b0 :: payload =>
          if b0 % 16 = 0 ∧ b0 / 16 % 16 = 0 ∧ payload ≠ [] then some payload
          else kissDecode st' rest
      else kissDecode { buf := [], inFrame := true, escaped := false } rest
    else if byte = 0xDB then
      kissDecode { st with escaped := st.inFrame } rest
    else
      kissDecode { st with buf := if st.inFrame then st.buf ++ [byte] else st.buf } rest

/-- The per-byte escaping in `KissCodec::encode`. -/
def kissEscByte (b : Nat) : List Nat :=
  if b = 0xC0 then [0xDB, 0xDC]
  else if b = 0xDB then [0xDB, 0xDD]
  else [b]

/-- `KissCodec::encode`: FEND, the port/command byte, the escaped payload,
FEND. -/
def kissEncode (data : List Nat) (port : Nat) : List Nat :=
  0xC0 :: ((port <<< 4) % 256) :: (data.map kissEscByte).flatten ++ [0xC0]

/-! ## AX.25 codec (`src/serial/mod.rs`) -/

/-- `encode_ax25_address`: six call characters left-shifted one bit,
space-padded (`0x40`), then the SSID byte `0x60 | (ssid << 1)` (`u8`
arithmetic, hence the `% 256`), with bit 0 set on the last address. -/
def encode_ax25_address (call : CallSign) (last : Bool) : List Nat :=
  let chars := (call.call.take 6).map (fun c => (c.toNat <<< 1) % 256)
  let padding := List.replicate (6 - (call.call.take 6).length) 0x40
  let ssidByte := ((call.ssid <<< 1) % 256) ||| 0x60
  chars ++ padding ++ [if last then ssidByte ||| 0x01 else ssidByte]

/-- `decode_ax25_address` applied to a 7-byte slice: shift each of the first
six bytes right, skip spaces, and append `-SSID` when the SSID nibble is
non-zero.  (The source returns `Err` only for slices shorter than 7 bytes;
every call site supplies exactly 7, so the function is modelled total.) -/
def decode_ax25_address (data : List Nat) : Str :=
  let call := (data.take 6).filterMap (fun b =>
    let c := Char.ofNat (b >>> 1)
    if c ≠ ' ' then some c else none)
  let ssid := ((data.drop 6).headD 0 >>> 1) % 16
  if ssid > 0 then call ++ '-' :: natStr ssid else call

/-- The digipeater-address loop of `ax25_to_aprs`: while the previous
address byte has bit 0 clear and at least 7 bytes remain, decode another
address prefixed with a comma.  Returns the accumulated text and the
remaining bytes. -/
def decodePathLoop (prevLast : Nat) : List Nat → Str × List Nat
  | b1 :: b2 :: b3 :: b4 :: b5 :: b6 :: b7 :: rest =>
    if prevLast % 2 = 0 then
      let digi := decode_ax25_address [b1, b2, b3, b4, b5, b6, b7]
      let next := decodePathLoop b7 rest
      (',' :: digi ++ next.1, next.2)
    else ([], b1 :: b2 :: b3 :: b4 :: b5 :: b6 :: b7 :: rest)
  | short => ([], short)

/-- `ax25_to_aprs`: reject frames under 16 bytes, decode destination and
source, follow the path while the end-of-address bit is clear, then append
`:INFO` when the control/PID bytes `0x03 0xF0` follow.  The information
bytes are ASCII in every packet this development quantifies over, where
`String::from_utf8_lossy` is character-for-byte. -/
def ax25_to_aprs (frame : List Nat) : Option Str :=
  if frame.length < 16 then none
  else
    let dest := decode_ax25_address (frame.take 7)
    let src := decode_ax25_address ((frame.drop 7).take 7)
    let last_bit := ((frame.drop 13).headD 0) % 2
    let start := src ++ '>' :: dest
    let walked :=
      if last_bit = 0 then decodePathLoop ((frame.drop 13).headD 0) (frame.drop 14)
      else ([], frame.drop 14)
    let result := start ++ walked.1
    match walked.2 with
    | 0x03 :: 0xF0 :: info => some (result ++ ':' :: info.map Char.ofNat)
    | _ => some result

/-- The loop of `aprs_to_ax25` over the path, setting the end-of-address
bit on the final hop. -/
def encodeHops : List CallSign → List Nat
  | [] => []
  | [hop] => encode_ax25_address hop true
  | hop :: rest => encode_ax25_address hop false ++ encodeHops rest

/-- `aprs_to_ax25`: destination, source (last when the path is empty), the
path hops, control `0x03`, PID `0xF0`, then the information bytes.  (The
source wraps this in `Result` but never fails.) -/
def aprs_to_ax25 (packet : AprsPacket) : List Nat :=
  encode_ax25_address packet.destination false ++
    encode_ax25_address packet.source packet.path.isEmpty ++
    encodeHops packet.path ++
    [0x03, 0xF0] ++
    packet.information.map Char.toNat

/-! ## Concrete instances used by counterexamples and witnesses -/

/-- Packet constructor mirroring `AprsPacket::new` plus a path, with the
data type derived from the information field. -/
def mkPacket (src dst : CallSign) (path : List CallSign) (info : Str) : AprsPacket :=
  ⟨src, dst, path, detectDataType info, info, 0, none⟩

/-- The digipeater configuration of the unit tests in `src/digipeater.rs`
(without the alias). -/
def digiCfg : DigipeaterConfig := ⟨true, "N0CALL-10".data, [], 5, 3⟩

/-- A digipeater configuration whose station call has no SSID, as the text
parser produces for path hops. -/
def digiCfgNoSsid : DigipeaterConfig := ⟨true, "N0CALL".data, [], 5, 3⟩

/-- The packet obtained by parsing `TEST>APRS,N0CALL*,WIDE2-2:>hi`: the
first hop carries the has-been-repeated flag (the `*` is stripped into the
flag, not kept in the call text) and the second hop is `WIDE2` with SSID 2. -/
def pktFlaggedWide : AprsPacket :=
  mkPacket ⟨"TEST".data, 0, false⟩ ⟨"APRS".data, 0, false⟩
    [⟨"N0CALL".data, 0, true⟩, ⟨"WIDE2".data, 2, false⟩] ">hi".data

/-- A packet whose three path hops all carry the has-been-repeated flag
with no `*` in their call text, the first matching `mycall` of
`digiCfgNoSsid`. -/
def pktThreeFlagged : AprsPacket :=
  mkPacket ⟨"TEST".data, 0, false⟩ ⟨"APRS".data, 0, false⟩
    [⟨"N0CALL".data, 0, true⟩, ⟨"ALPHA".data, 0, true⟩, ⟨"BRAVO".data, 0, true⟩] ">hi".data

/-- A packet whose single path hop is the literal text `WIDE8-1`. -/
def pktWide8 : AprsPacket :=
  mkPacket ⟨"TEST".data, 0, false⟩ ⟨"APRS".data, 0, false⟩
    [⟨"WIDE8-1".data, 0, false⟩] ">hi".data

/-- A packet whose single path hop is the literal text `WIDE2-2`. -/
def pktWide2 : AprsPacket :=
  mkPacket ⟨"TEST".data, 0, false⟩ ⟨"APRS".data, 0, false⟩
    [⟨"WIDE2-2".data, 0, false⟩] ">hi".data

/-- The rewritten packet the digipeater emits for `pktWide2`. -/
def pktWide2Rewritten : AprsPacket :=
  { pktWide2 with path := [⟨"N0CALL-10*".data, 0, false⟩, ⟨"WIDE2-1".data, 0, false⟩] }

/-- The digipeater dedup state after processing `pktWide2` once at time 0. -/
def stateWide2 : List (Str × Nat) := [("TEST>>hi".data, 0)]

/-- A router configuration with the digipeater disabled and no APRS-IS
uplink; internal packets still egress to RF. -/
def routerCfgPlain : Config := ⟨"X".data, none, ⟨false, "X".data, [], 5, 3⟩⟩

/-- A router configuration with an APRS-IS uplink that has both directions
enabled and the digipeater enabled. -/
def routerCfgFull : Config :=
  ⟨"N0CALL-10".data,
   some ⟨"rotate.aprs2.net".data, 14580, "N0CALL".data, "-1".data, none, true, true⟩,
   ⟨true, "N0CALL-10".data, [], 5, 3⟩⟩

/-- An internally sourced status packet for the router examples. -/
def rpInternal : RoutedPacket :=
  ⟨mkPacket ⟨"T".data, 0, false⟩ ⟨"A".data, 0, false⟩ [] ">x".data, .internal⟩

/-- A serial-sourced packet whose information field contains `RFONLY`. -/
def rpSerialRfonly : RoutedPacket :=
  ⟨mkPacket ⟨"T".data, 0, false⟩ ⟨"A".data, 0, false⟩ [] ">RFONLY test".data,
   .serialPort "tnc0".data⟩

/-- An APRS-IS client configuration whose passcode is not numeric. -/
def isCfgNonNumeric : AprsIsConfig :=
  ⟨"rotate.aprs2.net".data, 14580, "N0CALL".data, "abc".data, none, false, true⟩

/-- A packet with a flagged (has-been-repeated) path hop, for the AX.25
round-trip counterexample. -/
def pktFlaggedHop : AprsPacket :=
  mkPacket ⟨"TEST".data, 0, false⟩ ⟨"APRS".data, 0, false⟩
    [⟨"WIDE1".data, 1, true⟩] ">T".data

/-! ## Helper lemmas -/

/-- ASCII strings have byte length equal to character count. -/
theorem byteLen_ascii (s : Str) (h : ∀ c ∈ s, c.toNat < 128) : byteLen s = s.length := by
  induction s with
  | nil => rfl
  | cons c cs ih =>
    have hc : c.toNat < 128 := h c (List.mem_cons_self c cs)
    have hcs : ∀ x ∈ cs, x.toNat < 128 := fun x hx => h x (List.mem_cons_of_mem _ hx)
    simp only [byteLen, List.map_cons, List.sum_cons] at *
    rw [charByteLen, if_pos hc, ih hcs, List.length_cons]
    omega

/-- The output of splitChar is never the empty list of parts. -/
theorem splitChar_ne_nil (sep : Char) (s : Str) : splitChar sep s ≠ [] := by
  induction s with
  | nil => simp [splitChar]
  | cons c rest ih =>
    simp only [splitChar]
    split
    · simp
    · cases h : splitChar sep rest with
      | nil => exact absurd h ih
      | cons p ps => simp

/-! ## C3: hop cap -/

/-- C3 (counterexample): the claim reads the used-marker as the
has-been-repeated flag, but `should_digipeat` counts only hops whose call
text contains `*`.  This packet (the parse of
`TEST>APRS,N0CALL*,ALPHA*,BRAVO*:>hi`) has three flagged hops, meeting
`max_hops = 3`, yet is admitted because its first hop call matches
`mycall` and no call text contains `*`. -/
theorem hop_cap_flag_counterexample :
    (pktThreeFlagged.path.filter (fun h => h.digipeated)).length = 3 ∧
    digiCfgNoSsid.max_hops = 3 ∧
    should_digipeat digiCfgNoSsid pktThreeFlagged = true := by decide

/-- C3 (amended): a packet whose path contains at least `max_hops` hops
whose call text contains `*` (the form of used-marker the digipeater
actually inspects) is never admitted: `should_digipeat` returns false. -/
theorem hop_cap_star_text (config : DigipeaterConfig) (p : AprsPacket)
    (h : config.max_hops ≤ (p.path.filter (fun hop => strContainsChar hop.call '*')).length) :
    should_digipeat config p = false := by
  unfold should_digipeat
  split
  · rfl
  · rw [if_pos h]

/-- C3 (witness): the amended hop cap applied to a packet with three
literal `*`-marked hop texts under `max_hops = 3`. -/
theorem hop_cap_star_text_witness :
    should_digipeat digiCfg
      (mkPacket ⟨"TEST".data, 0, false⟩ ⟨"APRS".data, 0, false⟩
        [⟨"N0CALL*".data, 0, false⟩, ⟨"N1CALL*".data, 0, false⟩,
         ⟨"N2CALL*".data, 0, false⟩, ⟨"WIDE1-1".data, 0, false⟩] ">Test".data) = false :=
  hop_cap_star_text digiCfg _ (by decide)

/-! ## C4: callsign parsing -/

/-- C4 (counterexample): the token `N0CALL-300` has SSID part `300`, which
is greater than 15, yet `CallSign::parse` accepts it: `parse::<u8>` fails
above 255 and `unwrap_or(0)` silently turns the SSID into 0. -/
theorem callsign_parse_ssid300_counterexample :
    splitChar '-' "N0CALL-300".data = ["N0CALL".data, "300".data] ∧
    CallSign.parse "N0CALL-300".data = some ⟨"N0CALL".data, 0, false⟩ := by decide

/-- C4 (amended): `CallSign::parse` rejects a token whose base part (before
the first dash, after stripping a trailing `*`) is empty, and rejects a
token whose SSID part parses as a `u8` value above 15; SSID parts that fail
`u8` parsing (non-numeric or 256 and above) instead default to SSID 0. -/
theorem callsign_parse_rejects (tok : Str) :
    ((splitChar '-' (stripStar tok).1).headD [] = [] → CallSign.parse tok = none) ∧
    (∀ ssidPart rest v,
      (splitChar '-' (stripStar tok).1).tail = ssidPart :: rest →
      parseU8 ssidPart = some v → 15 < v → CallSign.parse tok = none) := by
  constructor
  · intro h0
    unfold CallSign.parse
    cases hp : splitChar '-' (stripStar tok).1 with
    | nil => exact absurd hp (splitChar_ne_nil _ _)
    | cons p0 rest =>
      rw [hp] at h0
      simp only [List.headD_cons] at h0
      simp [hp, h0]
  · intro ssidPart rest v htail hv hgt
    unfold CallSign.parse
    cases hp : splitChar '-' (stripStar tok).1 with
    | nil => exact absurd hp (splitChar_ne_nil _ _)
    | cons p0 rest2 =>
      rw [hp] at htail
      simp only [List.tail_cons] at htail
      subst htail
      simp only [hp]
      split
      · rfl
      · rw [hv]
        simp only [Option.getD_some]
        rw [if_pos hgt]

/-- C4 (witness): the empty-base rejection at `-5` and the SSID rejection
at `N0CALL-16`. -/
theorem callsign_parse_rejects_witness :
    CallSign.parse "-5".data = none ∧ CallSign.parse "N0CALL-16".data = none :=
  ⟨(callsign_parse_rejects "-5".data).1 (by decide),
   (callsign_parse_rejects "N0CALL-16".data).2 "16".data [] 16 (by decide) (by decide)
     (by decide)⟩

/-! ## C7: RFONLY / NOGATE never gated to APRS-IS -/

/-- C7: a packet arriving from a serial port whose information field
contains `RFONLY` or `NOGATE` is never published on the IS-egress channel
by `route_packet`, whatever the router state, configuration, filter, or
time. -/
theorem serial_rfonly_never_isgated (config : Config) (filter : AprsPacket → Bool)
    (recent : List (Nat × Nat)) (now : Nat) (name : Str) (p : AprsPacket) (q : RoutedPacket)
    (h : p.hasRfonly = true ∨ p.hasNogate = true) :
    Egress.isEgress q ∉ (route_packet config filter recent now ⟨p, .serialPort name⟩).1 := by
  intro hmem
  have hev : Egress.isEgress q ∈ route_events config ⟨p, .serialPort name⟩ := by
    revert hmem
    simp only [route_packet]
    split
    · simp
    split
    · simp
    · exact id
  revert hev
  unfold route_events
  rcases h with h | h <;>
    simp only [h, Bool.not_true, Bool.false_and, Bool.and_false, Bool.false_eq_true,
      if_false, List.append_nil, List.nil_append, List.mem_append] <;>
    rintro (hev | hev) <;> revert hev <;> split <;> simp

/-- C7 (witness): applied to a concrete RFONLY packet under the full
router configuration (APRS-IS uplink present and rx-enabled). -/
theorem serial_rfonly_never_isgated_witness :
    Egress.isEgress rpSerialRfonly ∉
      (route_packet routerCfgFull (fun _ => true) [] 0
        ⟨rpSerialRfonly.packet, .serialPort "tnc0".data⟩).1 :=
  serial_rfonly_never_isgated routerCfgFull (fun _ => true) [] 0 "tnc0".data
    rpSerialRfonly.packet rpSerialRfonly (Or.inl (by decide))

/-! ## C9: APRS-IS passcode -/

/-- C9: when the configured passcode does not parse as an `i32`, the login
line carries the computed passcode of the configured callsign, and the
computation yields 13023 for the base call `N0CALL`. -/
theorem passcode_login_computed (config : AprsIsConfig)
    (h : parseI32 config.passcode = none) :
    login_line config =
      "user ".data ++ config.callsign ++ " pass ".data ++
        intStr (calculate_passcode config.callsign) ++ " vers aprstx 0.1.0".data ++
        (match config.filter with
          | some f => " filter ".data ++ f
          | none => []) ++ "\r\n".data ∧
      calculate_passcode "N0CALL".data = 13023 := by
  refine ⟨?_, by decide⟩
  have hne : config.passcode ≠ "-1".data := by
    intro he
    rw [he] at h
    exact absurd h (by decide)
  unfold login_line passcode_of
  rw [if_neg hne, h]
  rfl

/-- C9 (witness): the login line produced for a non-numeric passcode
`abc` and callsign `N0CALL`. -/
theorem passcode_login_computed_witness :
    login_line isCfgNonNumeric = "user N0CALL pass 13023 vers aprstx 0.1.0\r\n".data := by
  have h := (passcode_login_computed isCfgNonNumeric (by decide)).1
  rw [h]
  decide

/-! ## C10: message addressee parsing -/

/-- C10: for a Message-type information field starting with `:` and at
least 11 bytes long whose addressee field (bytes 1..10 trimmed) equals or
starts with `mycall`, `handle_message` processes the packet, taking
everything from byte 11 onward as the message text — no hypothesis about
the byte at index 10 is needed; it is never checked against `:`. -/
theorem message_no_second_colon_check (mycall info : Str)
    (hascii : ∀ c ∈ info, c.toNat < 128)
    (hcolon : strStartsWith info ":".data = true)
    (hlen : 11 ≤ info.length)
    (haddr : trimStr ((info.drop 1).take 9) = mycall ∨
             strStartsWith (trimStr ((info.drop 1).take 9)) mycall = true) :
    handle_message mycall info =
      if strStartsWith (info.drop 11) "ack".data || strStartsWith (info.drop 11) "rej".data
      then MsgDecision.ackRej (info.drop 11)
      else MsgDecision.incoming (info.drop 11) := by
  unfold handle_message
  rw [byteLen_ascii info hascii, hcolon]
  have h11 : decide (info.length < 11) = false := decide_eq_false (by omega)
  rw [h11]
  simp only [Bool.not_true, Bool.or_false, Bool.false_eq_true, if_false]
  rcases haddr with ha | ha
  · rw [ha]
    simp only [bne_self_eq_false, Bool.false_and, Bool.false_eq_true, if_false]
  · rw [ha]
    simp only [Bool.not_true, Bool.and_false, Bool.false_eq_true, if_false]

/-- C10 (witness): the information field `:N0CALL   Xhello` has `X`, not
`:`, at byte index 10, and is still handled as an incoming message with
text `hello`. -/
theorem message_no_second_colon_check_witness :
    handle_message "N0CALL".data ":N0CALL   Xhello".data =
      MsgDecision.incoming "hello".data := by
  have h := message_no_second_colon_check "N0CALL".data ":N0CALL   Xhello".data
    (by decide) (by decide) (by decide) (Or.inl (by decide))
  rw [h]
  decide

/-! ## C8: digipeater admission -/

/-- Splitting at the first separator reconstructs the string, and the
prefix part is separator-free. -/
theorem splitFirst_sound (sep : Char) (s : Str) :
    ∀ pre post, splitFirst sep s = some (pre, post) →
      s = pre ++ sep :: post ∧ sep ∉ pre := by
  induction s with
  | nil => intro pre post h; exact absurd h (by simp [splitFirst])
  | cons c rest ih =>
    intro pre post h
    simp only [splitFirst] at h
    by_cases hc : (c == sep) = true
    · rw [if_pos hc] at h
      cases h
      rw [beq_iff_eq] at hc
      subst hc
      exact ⟨rfl, by simp⟩
    · rw [if_neg hc] at h
      cases hsf : splitFirst sep rest with
      | none => rw [hsf] at h; exact absurd h (by simp)
      | some pr =>
        obtain ⟨pr1, pr2⟩ := pr
        obtain ⟨hrec, hmem⟩ := ih pr1 pr2 hsf
        rw [hsf] at h
        cases h
        constructor
        · rw [hrec]
          rfl
        · intro hm
          rcases List.mem_cons.mp hm with hm | hm
          · exact hc (by rw [hm]; exact beq_self_eq_true c)
          · exact hmem hm

/-- Splitting at the first separator succeeds on a string assembled from a
separator-free prefix. -/
theorem splitFirst_complete (sep : Char) (pre post : Str) (h : sep ∉ pre) :
    splitFirst sep (pre ++ sep :: post) = some (pre, post) := by
  induction pre with
  | nil => simp [splitFirst]
  | cons c cs ih =>
    have hc : ¬ (c == sep) = true := by
      intro hb
      exact h (by rw [beq_iff_eq] at hb; rw [hb]; exact List.mem_cons_self _ _)
    have hcs : sep ∉ cs := fun hm => h (List.mem_cons_of_mem _ hm)
    simp only [List.cons_append, splitFirst, if_neg hc]
    rw [List.append_eq, ih hcs]

/-- Every character occupies at least one UTF-8 byte. -/
theorem charByteLen_pos (c : Char) : 1 ≤ charByteLen c := by
  unfold charByteLen
  split
  · omega
  · split
    · omega
    · split <;> omega

/-- A character below 128 occupies one UTF-8 byte. -/
theorem charByteLen_ascii (c : Char) (h : c.toNat < 128) : charByteLen c = 1 := by
  simp [charByteLen, h]

/-- A digit character occupies one UTF-8 byte. -/
theorem charByteLen_digit (d : Char) (h : d.isDigit = true) : charByteLen d = 1 := by
  have h2 := h
  simp [Char.isDigit, decide_eq_true_eq] at h2
  exact charByteLen_ascii d (Nat.lt_of_le_of_lt h2.2 (by norm_num))

/-- Explicit characterization of `is_wide_pattern`: the call text is
exactly `WIDE`, one decimal digit, a dash, and a suffix that `u8`-parses
into `1..=7`. -/
theorem is_wide_pattern_iff (call : Str) :
    is_wide_pattern call = true ↔
      ∃ d suffix n, call = 'W' :: 'I' :: 'D' :: 'E' :: d :: '-' :: suffix ∧
        d.isDigit = true ∧ parseU8 suffix = some n ∧ 1 ≤ n ∧ n ≤ 7 := by
  constructor
  · intro h
    unfold is_wide_pattern at h
    cases hsf : splitFirst '-' call with
    | none => rw [hsf] at h; exact absurd h (by simp)
    | some pr =>
      rw [hsf] at h
      obtain ⟨pre, suffix⟩ := pr
      simp only [Bool.and_eq_true, beq_iff_eq] at h
      obtain ⟨⟨⟨hlen, hsw⟩, hdig⟩, hparse⟩ := h
      obtain ⟨hcall, hnmem⟩ := splitFirst_sound '-' call pre suffix hsf
      -- decompose pre = WIDE ++ [d]
      obtain ⟨t, rfl⟩ : ∃ t, pre = 'W' :: 'I' :: 'D' :: 'E' :: t := by
        rcases pre with _ | ⟨a, _ | ⟨b, _ | ⟨c, _ | ⟨e, t⟩⟩⟩⟩ <;>
          simp [strStartsWith] at hsw
        · obtain ⟨rfl, rfl, rfl, rfl⟩ := hsw
          exact ⟨t, rfl⟩
      obtain ⟨d, rfl⟩ : ∃ d, t = [d] := by
        have hW : charByteLen 'W' = 1 := by decide
        have hI : charByteLen 'I' = 1 := by decide
        have hD : charByteLen 'D' = 1 := by decide
        have hE : charByteLen 'E' = 1 := by decide
        rcases t with _ | ⟨d, _ | ⟨d2, t2⟩⟩
        · exfalso
          simp only [byteLen, List.map_cons, List.map_nil, List.sum_cons, List.sum_nil,
            hW, hI, hD, hE] at hlen
          omega
        · exact ⟨d, rfl⟩
        · exfalso
          simp only [byteLen, List.map_cons, List.sum_cons, hW, hI, hD, hE] at hlen
          have p1 := charByteLen_pos d
          have p2 := charByteLen_pos d2
          omega
      refine ⟨d, suffix, ?_⟩
      cases hp : parseU8 suffix with
      | none => rw [hp] at hparse; exact absurd hparse (by simp)
      | some n =>
        rw [hp] at hparse
        simp only [Bool.and_eq_true, decide_eq_true_eq] at hparse
        have hd : d.isDigit = true := by
          simpa using hdig
        exact ⟨n, hcall, hd, rfl, hparse.1, hparse.2⟩
  · rintro ⟨d, suffix, n, rfl, hd, hp, h1, h7⟩
    have hdd : d ≠ '-' := by
      intro he
      rw [he] at hd
      exact absurd hd (by decide)
    have hnm : '-' ∉ ['W', 'I', 'D', 'E', d] := by
      intro hm
      simp only [List.mem_cons, List.not_mem_nil, or_false] at hm
      rcases hm with h | h | h | h | h
      · exact absurd h (by decide)
      · exact absurd h (by decide)
      · exact absurd h (by decide)
      · exact absurd h (by decide)
      · exact hdd h.symm
    unfold is_wide_pattern
    rw [show ('W' :: 'I' :: 'D' :: 'E' :: d :: '-' :: suffix : Str)
        = ['W', 'I', 'D', 'E', d] ++ '-' :: suffix from rfl]
    rw [splitFirst_complete '-' ['W', 'I', 'D', 'E', d] suffix hnm]
    have hb : byteLen ['W', 'I', 'D', 'E', d] = 5 := by
      simp only [byteLen, List.map_cons, List.map_nil, List.sum_cons, List.sum_nil,
        charByteLen_digit d hd, charByteLen_ascii 'W' (by decide),
        charByteLen_ascii 'I' (by decide), charByteLen_ascii 'D' (by decide),
        charByteLen_ascii 'E' (by decide)]
      omega
    simp [hb, strStartsWith, hd, hp, h7]
    omega

/-- The admission loop inspects exactly the first hop whose call text is
free of `*` — the digipeater notion of the current hop. -/
theorem digiAdmitLoop_eq_find (config : DigipeaterConfig) (path : List CallSign) :
    digiAdmitLoop config path =
      match path.find? (fun h => !strContainsChar h.call '*') with
      | some hop =>
        (hop.call == config.mycall || config.aliases.contains hop.call) ||
          is_wide_pattern hop.call
      | none => false := by
  induction path with
  | nil => rfl
  | cons hop rest ih =>
    by_cases h : strContainsChar hop.call '*' = true
    · simp only [digiAdmitLoop, if_pos h, List.find?, h, Bool.not_true]
      exact ih
    · have hb : strContainsChar hop.call '*' = false := by
        cases hx : strContainsChar hop.call '*'
        · rfl
        · exact absurd hx h
      simp [digiAdmitLoop, List.find?, hb, h]

/-- C8 (counterexample): the hop `WIDE8-1` — prefix digit 8, outside the
1..7 range the claim requires — is admitted by `should_digipeat`, because
the code checks the prefix digit only with `is_numeric`. -/
theorem wide8_admitted_counterexample :
    pktWide8.path.map CallSign.render = ["WIDE8-1".data] ∧
    should_digipeat digiCfg pktWide8 = true := by decide

/-- C8 (amended): `should_digipeat` admits a packet exactly when the
digipeater is enabled, fewer than `max_hops` hops have `*` in their call
text, and the current hop (the first whose call text has no `*`) either
equals `mycall`, is a configured alias, or reads `WIDE`, any single decimal
digit, a dash, and a suffix `u8`-parsing into 1..=7. -/
theorem should_digipeat_characterization (config : DigipeaterConfig) (p : AprsPacket) :
    should_digipeat config p = true ↔
      config.enabled = true ∧
      (p.path.filter (fun hop => strContainsChar hop.call '*')).length < config.max_hops ∧
      ∃ hop, p.path.find? (fun h => !strContainsChar h.call '*') = some hop ∧
        (hop.call = config.mycall ∨ hop.call ∈ config.aliases ∨
          ∃ d suffix n, hop.call = 'W' :: 'I' :: 'D' :: 'E' :: d :: '-' :: suffix ∧
            d.isDigit = true ∧ parseU8 suffix = some n ∧ 1 ≤ n ∧ n ≤ 7) := by
  unfold should_digipeat
  by_cases he : config.enabled = true
  · rw [he]
    simp only [Bool.not_true, Bool.false_eq_true, if_false]
    by_cases hcap : (p.path.filter (fun hop => strContainsChar hop.call '*')).length
        ≥ config.max_hops
    · rw [if_pos hcap]
      constructor
      · intro hF; exact absurd hF (by simp)
      · rintro ⟨_, hlt, _⟩; omega
    · rw [if_neg hcap, digiAdmitLoop_eq_find]
      cases hf : p.path.find? (fun h => !strContainsChar h.call '*') with
      | none =>
        constructor
        · intro hF; exact absurd hF (by simp)
        · rintro ⟨_, _, hop, hsome, _⟩
          exact absurd hsome (by simp)
      | some hop =>
        constructor
        · intro hadm
          simp only [Bool.or_eq_true, beq_iff_eq] at hadm
          refine ⟨trivial, by omega, hop, rfl, ?_⟩
          rcases hadm with hadm | hadm
          · rcases hadm with hadm | hadm
            · exact Or.inl hadm
            · exact Or.inr (Or.inl (by simpa using hadm))
          · exact Or.inr (Or.inr ((is_wide_pattern_iff hop.call).mp hadm))
        · rintro ⟨_, _, hop2, hsome, hmatch⟩
          have hhop : hop2 = hop := by
            injection hsome with h2
            exact h2.symm
          subst hhop
          simp only [Bool.or_eq_true, beq_iff_eq]
          rcases hmatch with hm | hm | hm
          · exact Or.inl (Or.inl hm)
          · exact Or.inl (Or.inr (by simpa using hm))
          · exact Or.inr ((is_wide_pattern_iff hop2.call).mpr hm)
  · have he2 : config.enabled = false := by
      cases hx : config.enabled
      · rfl
      · exact absurd hx he
    rw [he2]
    simp only [Bool.not_false, if_true]
    constructor
    · intro hF; exact absurd hF (by simp)
    · rintro ⟨hE, _⟩; exact absurd hE (by simp)

/-! ## C2: router dedup -/

/-- Recording a hash always leaves it in the dedup list: the overflow drain
removes the oldest 100 entries, never the one just pushed. -/
theorem store_packet_hash_mem (recent : List (Nat × Nat)) (now : Nat) (s : Str) :
    (calculate_packet_hash s, now) ∈ store_packet_hash recent now s := by
  simp only [store_packet_hash]
  split
  · rename_i hlen
    simp only [List.length_append, List.length_cons, List.length_nil] at hlen
    rw [List.drop_append_of_le_length (by omega)]
    exact List.mem_append_right _ (List.mem_singleton_self _)
  · exact List.mem_append_right _ (List.mem_singleton_self _)

/-- C2 (counterexample): with `viscous_delay = 5`, two identical packets
arriving exactly 5 seconds apart — within 5 seconds of each other — both
produce egress events: `is_duplicate` uses a strict comparison, so the
boundary packet is not treated as a duplicate. -/
theorem router_dedup_boundary_counterexample :
    routerCfgPlain.digipeater.viscous_delay = 5 ∧
    (route_packet routerCfgPlain (fun _ => true) [] 0 rpInternal).1 ≠ [] ∧
    (route_packet routerCfgPlain (fun _ => true)
      (route_packet routerCfgPlain (fun _ => true) [] 0 rpInternal).2 5 rpInternal).1 ≠ [] := by
  decide

/-- C2 (amended): two packets with identical textual form routed one after
the other (no intervening traffic, which could evict the stored hash once
the 1000-entry cap drains), the second strictly within `viscous_delay`
seconds of the first, produce egress events for at most one of the two:
whenever the first was routed, its recorded hash makes the second a
duplicate, which is dropped before any fan-out. -/
theorem route_packet_dup (config : Config) (filter : AprsPacket → Bool)
    (recent : List (Nat × Nat)) (now : Nat) (rp : RoutedPacket)
    (h : is_duplicate config recent now (packetRender rp.packet) = true) :
    route_packet config filter recent now rp = ([], recent) := by
  simp [route_packet, h]

theorem router_dedup_consecutive (config : Config) (filter : AprsPacket → Bool)
    (recent : List (Nat × Nat)) (t1 t2 : Nat) (rp1 rp2 : RoutedPacket)
    (hform : packetRender rp1.packet = packetRender rp2.packet)
    (hwin : t2 - t1 < config.digipeater.viscous_delay) :
    (route_packet config filter recent t1 rp1).1 = [] ∨
    (route_packet config filter (route_packet config filter recent t1 rp1).2 t2 rp2).1 = [] := by
  by_cases hdup : is_duplicate config recent t1 (packetRender rp1.packet) = true
  · left
    rw [route_packet_dup config filter recent t1 rp1 hdup]
  · by_cases hfil : filter rp1.packet = true
    · right
      have hstate : (route_packet config filter recent t1 rp1).2 =
          store_packet_hash recent t1 (packetRender rp1.packet) := by
        simp [route_packet, hdup, hfil]
      have hdup2 : is_duplicate config (route_packet config filter recent t1 rp1).2 t2
          (packetRender rp2.packet) = true := by
        rw [hstate, ← hform]
        unfold is_duplicate
        rw [List.any_eq_true]
        refine ⟨(calculate_packet_hash (packetRender rp1.packet), t1),
          store_packet_hash_mem recent t1 _, ?_⟩
        simp [hwin]
      rw [route_packet_dup config filter _ t2 rp2 hdup2]
    · left
      have hf2 : filter rp1.packet = false := by
        cases hx : filter rp1.packet
        · rfl
        · exact absurd hx hfil
      simp [route_packet, hdup, hf2]

/-- C2 (witness): the amended dedup property at a concrete pair 3 seconds
apart under a 5-second viscous delay. -/
theorem router_dedup_consecutive_witness :
    (route_packet routerCfgPlain (fun _ => true) [] 0 rpInternal).1 = [] ∨
    (route_packet routerCfgPlain (fun _ => true)
      (route_packet routerCfgPlain (fun _ => true) [] 0 rpInternal).2 3 rpInternal).1 = [] :=
  router_dedup_consecutive routerCfgPlain (fun _ => true) [] 0 3 rpInternal rpInternal rfl
    (by decide)

/-! ## C5: KISS round-trip -/

/-- Running the decoder inside a frame over the escaped payload up to the
closing FEND accumulates exactly the unescaped bytes onto the buffer and
then performs the end-of-frame dispatch. -/
theorem kissDecode_frame_body (data : List Nat) : ∀ acc rest,
    kissDecode ⟨acc, true, false⟩ ((data.map kissEscByte).flatten ++ 0xC0 :: rest) =
      (match acc ++ data with
        | [] => kissDecode ⟨[], true, false⟩ rest
        | b0 :: payload =>
          if b0 % 16 = 0 ∧ b0 / 16 % 16 = 0 ∧ payload ≠ [] then some payload
          else kissDecode ⟨[], false, false⟩ rest) := by
  induction data with
  | nil =>
    intro acc rest
    simp only [List.map_nil, List.flatten_nil, List.nil_append]
    cases acc with
    | nil => simp [kissDecode]
    | cons a as => simp [kissDecode]
  | cons b bs ih =>
    intro acc rest
    simp only [List.map_cons, List.flatten_cons, List.append_assoc]
    by_cases hb : b = 0xC0
    · subst hb
      simp only [kissEscByte, if_pos rfl]
      simp only [kissDecode, List.cons_append, List.nil_append]
      norm_num
      rw [ih (acc ++ [0xC0]) rest]
      simp [List.append_assoc]
    · by_cases hb2 : b = 0xDB
      · subst hb2
        simp only [kissEscByte, if_neg hb, if_pos rfl]
        simp only [kissDecode, List.cons_append, List.nil_append]
        norm_num
        rw [ih (acc ++ [0xDB]) rest]
        simp [List.append_assoc]
      · simp only [kissEscByte, if_neg hb, if_neg hb2]
        simp only [kissDecode, List.cons_append, List.nil_append]
        simp only [Bool.false_eq_true, if_false, if_true, List.append_eq, List.nil_append,
          if_neg hb, if_neg hb2]
        rw [ih (acc ++ [b]) rest]
        simp [List.append_assoc]

/-- C5 (counterexample): the empty byte sequence does not round-trip: its
KISS frame contains only the port/command byte, and the decoder discards
data frames with no payload, yielding no frame at all instead of an empty
one. -/
theorem kiss_empty_frame_counterexample :
    kissDecode ⟨[], false, false⟩ (kissEncode [] 0) = none := by decide

/-- C5 (amended): every non-empty byte sequence round-trips through KISS
framing on port 0: a fresh decoder fed `encode(b, 0)` returns exactly `b`,
including payloads containing the FEND (0xC0) and FESC (0xDB) bytes. -/
theorem kiss_roundtrip_nonempty (data : List Nat) (h : data ≠ []) :
    kissDecode ⟨[], false, false⟩ (kissEncode data 0) = some data := by
  unfold kissEncode
  rw [show ((0 : Nat) <<< 4) % 256 = 0 from by decide]
  simp only [kissDecode, List.nil_append]
  norm_num
  rw [kissDecode_frame_body data [0] []]
  show (if (0 : Nat) % 16 = 0 ∧ (0 : Nat) / 16 % 16 = 0 ∧ data ≠ [] then some data
    else kissDecode ⟨[], false, false⟩ []) = some data
  rw [if_pos ⟨by norm_num, by norm_num, h⟩]

/-- C5 (witness): the single FEND byte 0xC0 round-trips. -/
theorem kiss_roundtrip_nonempty_witness :
    kissDecode ⟨[], false, false⟩ (kissEncode [0xC0] 0) = some [0xC0] :=
  kiss_roundtrip_nonempty [0xC0] (by decide)

/-! ## C1: digipeater path rewrite -/

/-- Once `found_us` is set, the rewrite loop copies every remaining hop. -/
theorem rewriteLoop_found (config : DigipeaterConfig) (hops : List CallSign) :
    rewriteLoop config hops true = (hops, true) := by
  induction hops with
  | nil => rfl
  | cons hop rest ih =>
    simp [rewriteLoop, ih]

/-- Hops whose call text contains `*` are copied unchanged before the
current hop is reached. -/
theorem rewriteLoop_before (config : DigipeaterConfig) (before : List CallSign)
    (hbefore : ∀ h ∈ before, strContainsChar h.call '*' = true) (rest : List CallSign) :
    rewriteLoop config (before ++ rest) false =
      (before ++ (rewriteLoop config rest false).1, (rewriteLoop config rest false).2) := by
  induction before with
  | nil => simp
  | cons h0 bs ih =>
    have h0star := hbefore h0 (List.mem_cons_self h0 bs)
    have hbs : ∀ h ∈ bs, strContainsChar h.call '*' = true :=
      fun h hm => hbefore h (List.mem_cons_of_mem _ hm)
    simp [List.cons_append, rewriteLoop, h0star, ih hbs]

/-- The admission loop ignores leading hops whose call text contains `*`. -/
theorem digiAdmitLoop_before (config : DigipeaterConfig) (before : List CallSign)
    (hbefore : ∀ h ∈ before, strContainsChar h.call '*' = true) (rest : List CallSign) :
    digiAdmitLoop config (before ++ rest) = digiAdmitLoop config rest := by
  induction before with
  | nil => rfl
  | cons h0 bs ih =>
    have h0star := hbefore h0 (List.mem_cons_self h0 bs)
    have hbs : ∀ h ∈ bs, strContainsChar h.call '*' = true :=
      fun h hm => hbefore h (List.mem_cons_of_mem _ hm)
    simp [List.cons_append, digiAdmitLoop, h0star, ih hbs]

/-- Rendering of a rewritten hop: `CallSign::new` with SSID 0 renders as
the uppercased text alone. -/
theorem render_new_zero (s : Str) : CallSign.render (CallSign.new s 0) = toUpperStr s := by
  simp [CallSign.new, CallSign.render]

/-- C1 (counterexample): the parse of `TEST>APRS,N0CALL*,WIDE2-2:>hi` under
`mycall = N0CALL`.  Its current hop per the claim (first hop without the
has-been-repeated marker) renders as `WIDE2-2`, a WIDEn-N hop with N = 2,
and the packet is admitted — yet the emitted path renders as
`N0CALL*,WIDE2-2`: the digipeater re-consumed the already-used `N0CALL`
hop (whose call text has no `*`) instead of splitting the WIDE hop as the
claim demands (`N0CALL*,N0CALL*,WIDE2-1`). -/
theorem digipeater_flag_current_hop_counterexample :
    pktFlaggedWide.path.map (fun h => h.digipeated) = [true, false] ∧
    pktFlaggedWide.path.map CallSign.render = ["N0CALL*".data, "WIDE2-2".data] ∧
    should_digipeat digiCfgNoSsid pktFlaggedWide = true ∧
    (process_packet digiCfgNoSsid pktFlaggedWide [] 0).1.map
        (fun q => q.path.map CallSign.render) = some ["N0CALL*".data, "WIDE2-2".data] ∧
    (process_packet digiCfgNoSsid pktFlaggedWide [] 0).1.map
        (fun q => q.path.map CallSign.render) ≠
      some ["N0CALL*".data, "N0CALL*".data, "WIDE2-1".data] := by
  decide

/-- C1 (amended): for an admitted packet, read the used-marker the way the
digipeater does — a `*` in the hop call text.  Decompose the path as
`before ++ hop :: after` with every hop of `before` marked and `hop`
unmarked (so `hop` is the digipeater current hop).  When `process_packet`
emits a rewritten packet, its path renders as: `before` unchanged, then
`mycall*`, then — only when the current hop matched as WIDEn-N rather than
as `mycall` or an alias — `WIDEn-(N-1)` when N > 1 and nothing when N = 1,
then `after` unchanged. -/
theorem digipeater_rewrite_current_hop (config : DigipeaterConfig) (p : AprsPacket)
    (recent : List (Str × Nat)) (now : Nat) (before after : List CallSign) (hop : CallSign)
    (q : AprsPacket) (s2 : List (Str × Nat))
    (hpath : p.path = before ++ hop :: after)
    (hbefore : ∀ h ∈ before, strContainsChar h.call '*' = true)
    (hhop : strContainsChar hop.call '*' = false)
    (hadm : should_digipeat config p = true)
    (hemit : process_packet config p recent now = (some q, s2)) :
    q.source = p.source ∧ q.destination = p.destination ∧
      q.information = p.information ∧
    q.path.map CallSign.render =
      before.map CallSign.render ++
        toUpperStr (config.mycall ++ ['*']) ::
          ((if hop.call = config.mycall ∨ hop.call ∈ config.aliases then
              ([] : List Str)
            else if 1 < (parse_wide_pattern hop.call).2 then
              [toUpperStr ((parse_wide_pattern hop.call).1 ++
                '-' :: natStr ((parse_wide_pattern hop.call).2 - 1))]
            else []) ++ after.map CallSign.render) := by
  -- the current hop matches mycall, an alias, or the wide pattern
  have h1 : digiAdmitLoop config p.path = true := by
    unfold should_digipeat at hadm
    split at hadm
    · exact absurd hadm (by simp)
    · dsimp only at hadm
      split at hadm
      · exact absurd hadm (by simp)
      · exact hadm
  rw [hpath, digiAdmitLoop_before config before hbefore (hop :: after)] at h1
  simp only [digiAdmitLoop, hhop, Bool.false_eq_true, if_false] at h1
  -- compute the rewrite loop on the decomposed path
  have hrw : rewriteLoop config p.path false =
      (before ++
        CallSign.new (config.mycall ++ ['*']) 0 ::
          ((if hop.call = config.mycall ∨ hop.call ∈ config.aliases then
              ([] : List CallSign)
            else if 1 < (parse_wide_pattern hop.call).2 then
              [CallSign.new ((parse_wide_pattern hop.call).1 ++
                '-' :: natStr ((parse_wide_pattern hop.call).2 - 1)) 0]
            else []) ++ after), true) := by
    rw [hpath, rewriteLoop_before config before hbefore (hop :: after)]
    by_cases hmy : (hop.call == config.mycall || config.aliases.contains hop.call) = true
    · have hmyP : hop.call = config.mycall ∨ hop.call ∈ config.aliases := by
        simpa using hmy
      simp [rewriteLoop, hhop, hmy, hmyP, rewriteLoop_found]
    · have hmyB : (hop.call == config.mycall || config.aliases.contains hop.call) = false := by
        cases hx : (hop.call == config.mycall || config.aliases.contains hop.call)
        · rfl
        · exact absurd hx hmy
      have hmyP : ¬(hop.call = config.mycall ∨ hop.call ∈ config.aliases) := by
        intro hc
        apply hmy
        rcases hc with hc | hc
        · simp [hc]
        · simp [hc]
      have hwide : is_wide_pattern hop.call = true := by
        rw [hmyB] at h1
        simpa using h1
      by_cases hn : 1 < (parse_wide_pattern hop.call).2
      · simp [rewriteLoop, hhop, hmyB, hwide, rewriteLoop_found, hmyP, hn]
      · simp [rewriteLoop, hhop, hmyB, hwide, rewriteLoop_found, hmyP, hn]
  -- extract the emitted packet
  unfold process_packet at hemit
  rw [hrw] at hemit
  simp only at hemit
  split at hemit
  · exact absurd hemit (by simp)
  · have hq := congrArg Prod.fst hemit
    simp only at hq
    injection hq with hq2
    rw [← hq2]
    refine ⟨rfl, rfl, rfl, ?_⟩
    simp only [List.map_append, List.map_cons, render_new_zero]
    split
    · simp [render_new_zero]
    · split <;> simp [render_new_zero]

/-- C1 (witness): the amended rewrite applied to `TEST>APRS,WIDE2-2:>hi`
under `mycall = N0CALL-10`, yielding path texts `N0CALL-10*`, `WIDE2-1`. -/
theorem digipeater_rewrite_current_hop_witness :
    pktWide2Rewritten.source = pktWide2.source ∧
      pktWide2Rewritten.destination = pktWide2.destination ∧
      pktWide2Rewritten.information = pktWide2.information ∧
    pktWide2Rewritten.path.map CallSign.render =
      ([] : List CallSign).map CallSign.render ++
        toUpperStr (digiCfg.mycall ++ ['*']) ::
          ((if ("WIDE2-2".data : Str) = digiCfg.mycall ∨
              ("WIDE2-2".data : Str) ∈ digiCfg.aliases then
              ([] : List Str)
            else if 1 < (parse_wide_pattern "WIDE2-2".data).2 then
              [toUpperStr ((parse_wide_pattern "WIDE2-2".data).1 ++
                '-' :: natStr ((parse_wide_pattern "WIDE2-2".data).2 - 1))]
            else []) ++ ([] : List CallSign).map CallSign.render) :=
  digipeater_rewrite_current_hop digiCfg pktWide2 [] 0 [] []
    ⟨"WIDE2-2".data, 0, false⟩ pktWide2Rewritten stateWide2
    (by decide) (by decide) (by decide) (by decide) (by decide)

/-! ## C6: AX.25 round-trip -/

/-- Characters of a valid callsign are ASCII. -/
theorem validCallChar_lt (c : Char) (h : validCallChar c) : c.toNat < 128 := by
  rcases h with ⟨_, h2⟩ | ⟨_, h2⟩ <;> omega

/-- Characters of a valid callsign are not spaces. -/
theorem validCallChar_ne_space (c : Char) (h : validCallChar c) : c ≠ ' ' := by
  intro he
  have h32 : c.toNat = 32 := by rw [he]; rfl
  rcases h with ⟨h1, _⟩ | ⟨h1, _⟩ <;> omega

/-- Shifting an ASCII character code left one bit (mod 256) and back
recovers the character. -/
theorem char_shift_roundtrip (c : Char) (h : c.toNat < 128) :
    Char.ofNat (((c.toNat <<< 1) % 256) >>> 1) = c := by
  have h1 : (c.toNat <<< 1) % 256 = c.toNat * 2 := by
    rw [Nat.shiftLeft_eq, pow_one]
    exact Nat.mod_eq_of_lt (by omega)
  have h2 : (c.toNat * 2) >>> 1 = c.toNat := by
    rw [Nat.shiftRight_eq_div_pow, pow_one]
    exact Nat.mul_div_cancel _ (by omega)
  rw [h1, h2]
  exact Char.ofNat_toNat c

/-- The SSID byte of a non-final address is even. -/
theorem ssid_byte_even (s : Nat) (h : s ≤ 15) : (((s <<< 1) % 256) ||| 0x60) % 2 = 0 := by
  have hall : ∀ t, t < 16 → (((t <<< 1) % 256) ||| 0x60) % 2 = 0 := by decide
  exact hall s (by omega)

/-- The SSID byte of a final address is odd. -/
theorem ssid_byte_odd (s : Nat) (h : s ≤ 15) :
    ((((s <<< 1) % 256) ||| 0x60) ||| 0x01) % 2 = 1 := by
  have hall : ∀ t, t < 16 → ((((t <<< 1) % 256) ||| 0x60) ||| 0x01) % 2 = 1 := by decide
  exact hall s (by omega)

/-- Decoding the SSID nibble of a non-final address byte. -/
theorem ssid_byte_decode_even (s : Nat) (h : s ≤ 15) :
    ((((s <<< 1) % 256) ||| 0x60) >>> 1) % 16 = s := by
  have hall : ∀ t, t < 16 → ((((t <<< 1) % 256) ||| 0x60) >>> 1) % 16 = t := by decide
  exact hall s (by omega)

/-- Decoding the SSID nibble of a final address byte. -/
theorem ssid_byte_decode_odd (s : Nat) (h : s ≤ 15) :
    (((((s <<< 1) % 256) ||| 0x60) ||| 0x01) >>> 1) % 16 = s := by
  have hall : ∀ t, t < 16 → (((((t <<< 1) % 256) ||| 0x60) ||| 0x01) >>> 1) % 16 = t := by
    decide
  exact hall s (by omega)

/-- A filterMap that fixes every element of a list is the identity. -/
theorem filterMap_eq_self (l : List Char) (f : Char → Option Char)
    (h : ∀ ch ∈ l, f ch = some ch) : l.filterMap f = l := by
  induction l with
  | nil => rfl
  | cons c cs ih =>
    rw [List.filterMap_cons, h c (List.mem_cons_self c cs),
      ih (fun x hx => h x (List.mem_cons_of_mem _ hx))]

/-- A filterMap that drops the replicated element yields nothing. -/
theorem filterMap_replicate_none (n : Nat) (f : Nat → Option Char) (b : Nat)
    (h : f b = none) : (List.replicate n b).filterMap f = [] := by
  induction n with
  | zero => rfl
  | succ m ih => rw [List.replicate_succ, List.filterMap_cons, h, ih]

/-- Decoding a character list mapped to bytes recovers the characters. -/
theorem map_ofNat_toNat (info : List Char) : (info.map Char.toNat).map Char.ofNat = info := by
  rw [List.map_map]
  exact (List.map_congr_left (fun c _ => Char.ofNat_toNat c)).trans (List.map_id info)

/-- Composed form of the byte round-trip on the information field. -/
theorem map_ofNat_comp_toNat (info : List Char) :
    info.map (Char.ofNat ∘ Char.toNat) = info :=
  (List.map_congr_left (fun c _ => Char.ofNat_toNat c)).trans (List.map_id info)

/-- An encoded AX.25 address is 7 bytes. -/
theorem encode_addr_length (c : CallSign) (last : Bool) :
    (encode_ax25_address c last).length = 7 := by
  unfold encode_ax25_address
  simp only [List.length_append, List.length_map, List.length_replicate, List.length_take,
    List.length_cons, List.length_nil]
  omega

/-- The first six bytes of an encoded address are the shifted characters
plus space padding; the seventh is the SSID byte. -/
theorem encode_addr_parts (c : CallSign) (last : Bool) (hlen : c.call.length ≤ 6) :
    (encode_ax25_address c last).take 6
      = c.call.map (fun ch => (ch.toNat <<< 1) % 256) ++
          List.replicate (6 - c.call.length) 0x40 ∧
    (encode_ax25_address c last).drop 6
      = [if last then (((c.ssid <<< 1) % 256) ||| 0x60) ||| 0x01
         else ((c.ssid <<< 1) % 256) ||| 0x60] := by
  have hshow : encode_ax25_address c last =
      (c.call.map (fun ch : Char => (ch.toNat <<< 1) % 256) ++
        List.replicate (6 - c.call.length) 0x40) ++
        [if last then (((c.ssid <<< 1) % 256) ||| 0x60) ||| 0x01
         else ((c.ssid <<< 1) % 256) ||| 0x60] := by
    unfold encode_ax25_address
    dsimp only
    rw [List.take_of_length_le hlen, List.append_assoc]
  have hlen6 : (c.call.map (fun ch : Char => (ch.toNat <<< 1) % 256) ++
      List.replicate (6 - c.call.length) 0x40).length = 6 := by
    simp only [List.length_append, List.length_map, List.length_replicate]
    omega
  rw [hshow]
  exact ⟨List.take_left' hlen6, List.drop_left' hlen6⟩

/-- Decoding an encoded valid address recovers the textual callsign. -/
theorem decode_encode_addr (c : CallSign) (last : Bool) (hv : c.valid) :
    decode_ax25_address (encode_ax25_address c last)
      = c.call ++ (if c.ssid = 0 then [] else '-' :: natStr c.ssid) := by
  obtain ⟨hne, hlen, hchars, hssid⟩ := hv
  obtain ⟨htake, hdrop⟩ := encode_addr_parts c last hlen
  unfold decode_ax25_address
  rw [htake, hdrop, List.filterMap_append]
  have hfm : (c.call.map (fun ch => (ch.toNat <<< 1) % 256)).filterMap
      (fun b =>
        let c := Char.ofNat (b >>> 1)
        if c ≠ ' ' then some c else none) = c.call := by
    rw [List.filterMap_map]
    apply filterMap_eq_self
    intro ch hm
    have hlt := validCallChar_lt ch (hchars ch hm)
    simp only [Function.comp_apply]
    show (if Char.ofNat (((ch.toNat <<< 1) % 256) >>> 1) ≠ ' '
      then some (Char.ofNat (((ch.toNat <<< 1) % 256) >>> 1)) else none) = some ch
    rw [char_shift_roundtrip ch hlt]
    rw [if_pos (validCallChar_ne_space ch (hchars ch hm))]
  have hpad : (List.replicate (6 - c.call.length) (0x40 : Nat)).filterMap
      (fun b =>
        let c := Char.ofNat (b >>> 1)
        if c ≠ ' ' then some c else none) = [] :=
    filterMap_replicate_none _ _ _ (by decide)
  rw [hfm, hpad, List.append_nil]
  simp only [List.headD_cons]
  cases last
  · simp only [Bool.false_eq_true, if_false, ssid_byte_decode_even c.ssid hssid]
    by_cases h0 : c.ssid = 0
    · simp [h0]
    · simp [h0, Nat.pos_of_ne_zero h0]
  · simp only [if_true, ssid_byte_decode_odd c.ssid hssid]
    by_cases h0 : c.ssid = 0
    · simp [h0]
    · simp [h0, Nat.pos_of_ne_zero h0]

/-- Decoding an encoded valid, unflagged address yields its rendering. -/
theorem decode_encode_addr_render (c : CallSign) (last : Bool) (hv : c.valid)
    (hf : c.digipeated = false) :
    decode_ax25_address (encode_ax25_address c last) = CallSign.render c := by
  rw [decode_encode_addr c last hv]
  unfold CallSign.render
  by_cases h0 : c.ssid = 0 <;> simp [h0, hf]

/-- The path loop stops immediately when the previous address byte is odd. -/
theorem decodePathLoop_odd (prev : Nat) (h : prev % 2 = 1) (l : List Nat) :
    decodePathLoop prev l = ([], l) := by
  rcases l with _ | ⟨b1, _ | ⟨b2, _ | ⟨b3, _ | ⟨b4, _ | ⟨b5, _ | ⟨b6, _ | ⟨b7, tl⟩⟩⟩⟩⟩⟩⟩ <;>
    simp [decodePathLoop, h]

/-- One step of the path loop across a 7-byte address block. -/
theorem decodePathLoop_append7 (addr : List Nat) (h7 : addr.length = 7) (r : List Nat)
    (prev : Nat) (hprev : prev % 2 = 0) :
    decodePathLoop prev (addr ++ r) =
      (',' :: decode_ax25_address addr ++ (decodePathLoop ((addr.drop 6).headD 0) r).1,
       (decodePathLoop ((addr.drop 6).headD 0) r).2) := by
  rcases addr with _ | ⟨b1, _ | ⟨b2, _ | ⟨b3, _ | ⟨b4, _ | ⟨b5, _ | ⟨b6, _ | ⟨b7, tl⟩⟩⟩⟩⟩⟩⟩ <;>
    simp only [List.length_nil, List.length_cons] at h7 <;> try omega
  have htl : tl = [] := by
    have : tl.length = 0 := by omega
    exact List.eq_nil_of_length_eq_zero this
  subst htl
  simp [decodePathLoop, hprev]

/-- Walking the encoded path decodes every hop in order and leaves the
control/PID remainder. -/
theorem decodePathLoop_encodeHops :
    ∀ (hops : List CallSign) (r : List Nat) (prev : Nat),
      (∀ h ∈ hops, h.valid ∧ h.digipeated = false) → prev % 2 = 0 → hops ≠ [] →
      decodePathLoop prev (encodeHops hops ++ r) =
        ((hops.map (fun h => ',' :: CallSign.render h)).flatten, r) := by
  intro hops
  induction hops with
  | nil => intro r prev _ _ hne; exact absurd rfl hne
  | cons hop rest ih =>
    intro r prev hv hprev _
    obtain ⟨hhv, hhf⟩ := hv hop (List.mem_cons_self hop rest)
    have hhlen : hop.call.length ≤ 6 := hhv.2.1
    have hhssid : hop.ssid ≤ 15 := hhv.2.2.2
    cases rest with
    | nil =>
      show decodePathLoop prev (encode_ax25_address hop true ++ r) = _
      rw [decodePathLoop_append7 _ (encode_addr_length hop true) r prev hprev,
        (encode_addr_parts hop true hhlen).2]
      simp only [List.headD_cons, if_true]
      rw [decodePathLoop_odd _ (ssid_byte_odd hop.ssid hhssid) r]
      simp [decode_encode_addr_render hop true hhv hhf]
    | cons hop2 rest2 =>
      have hrest : ∀ h ∈ hop2 :: rest2, h.valid ∧ h.digipeated = false :=
        fun h hm => hv h (List.mem_cons_of_mem _ hm)
      show decodePathLoop prev
          ((encode_ax25_address hop false ++ encodeHops (hop2 :: rest2)) ++ r) = _
      rw [List.append_assoc,
        decodePathLoop_append7 _ (encode_addr_length hop false) _ prev hprev,
        (encode_addr_parts hop false hhlen).2]
      simp only [List.headD_cons, Bool.false_eq_true, if_false]
      rw [ih r (((hop.ssid <<< 1) % 256) ||| 0x60) hrest
        (ssid_byte_even hop.ssid hhssid) (by simp)]
      simp [decode_encode_addr_render hop false hhv hhf]

/-- C6 (counterexample): the has-been-repeated flag is not carried through
AX.25 encoding: `encode_ax25_address` never sets the 0x80 bit and
`decode_ax25_address` never reads it, so a packet whose path hop is flagged
(rendering `WIDE1-1*`) decodes back without the `*`. -/
theorem ax25_flag_dropped_counterexample :
    packetRender pktFlaggedHop = "TEST>APRS,WIDE1-1*:>T".data ∧
    ax25_to_aprs (aprs_to_ax25 pktFlaggedHop) = some "TEST>APRS,WIDE1-1:>T".data ∧
    ax25_to_aprs (aprs_to_ax25 pktFlaggedHop) ≠ some (packetRender pktFlaggedHop) := by
  decide

/-- C6 (amended): for packets with valid callsigns (1..6 uppercase
alphanumerics, SSID 0..=15) whose has-been-repeated flags are all clear and
whose information field is ASCII (where the byte model is faithful),
decoding the encoded AX.25 UI frame yields exactly the packet textual form
— hence the same packet up to timestamp.  The flag clause of the original
claim fails; see the counterexample. -/
theorem ax25_textual_roundtrip (p : AprsPacket)
    (hsrc : p.source.valid) (hsf : p.source.digipeated = false)
    (hdst : p.destination.valid) (hdf : p.destination.digipeated = false)
    (hpath : ∀ h ∈ p.path, h.valid ∧ h.digipeated = false)
    (_hinfo : ∀ c ∈ p.information, c.toNat < 128) :
    ax25_to_aprs (aprs_to_ax25 p) = some (packetRender p) := by
  have hD := encode_addr_length p.destination false
  have hS := encode_addr_length p.source p.path.isEmpty
  have hlen16 : ¬ ((encode_ax25_address p.destination false ++
      (encode_ax25_address p.source p.path.isEmpty ++
        (encodeHops p.path ++ ([0x03, 0xF0] ++ List.map Char.toNat p.information)))).length
        < 16) := by
    simp only [List.length_append, hD, hS, List.length_cons, List.length_nil]
    omega
  unfold aprs_to_ax25 ax25_to_aprs
  simp only [List.append_assoc]
  rw [if_neg hlen16]
  rw [List.take_left' hD, List.drop_left' hD, List.take_left' hS]
  have h13 : (13 : Nat) = (encode_ax25_address p.destination false).length + 6 := by
    rw [hD]
  rw [h13, List.drop_append]
  have h6S : (6 : Nat) ≤ (encode_ax25_address p.source p.path.isEmpty).length := by
    rw [hS]
    omega
  rw [List.drop_append_of_le_length h6S,
    (encode_addr_parts p.source p.path.isEmpty hsrc.2.1).2,
    List.singleton_append, List.headD_cons]
  have h14 : (14 : Nat) = (encode_ax25_address p.destination false).length + 7 := by
    rw [hD]
  rw [h14, List.drop_append, List.drop_left' hS]
  cases hp : p.path with
  | nil =>
    simp only [List.isEmpty_nil, if_true, encodeHops, List.nil_append]
    rw [ssid_byte_odd p.source.ssid hsrc.2.2.2]
    simp only [List.cons_append, List.nil_append]
    norm_num
    unfold packetRender
    rw [hp]
    simp [decode_encode_addr_render p.destination false hdst hdf,
      decode_encode_addr_render p.source true hsrc hsf, map_ofNat_toNat,
      map_ofNat_comp_toNat, List.append_assoc]
  | cons hop hops =>
    rw [hp] at hpath
    simp only [List.isEmpty_cons, Bool.false_eq_true, if_false]
    rw [ssid_byte_even p.source.ssid hsrc.2.2.2]
    norm_num
    rw [decodePathLoop_encodeHops (hop :: hops)
      (3 :: 240 :: List.map Char.toNat p.information)
      (((p.source.ssid <<< 1) % 256) ||| 0x60) hpath
      (ssid_byte_even p.source.ssid hsrc.2.2.2) (by simp)]
    unfold packetRender
    rw [hp]
    simp [decode_encode_addr_render p.destination false hdst hdf,
      decode_encode_addr_render p.source false hsrc hsf, map_ofNat_toNat,
      map_ofNat_comp_toNat, List.append_assoc]

/-- C6 (witness): the amended round-trip at `TEST>APRS,WIDE1-1:>T` (path
hop unflagged). -/
theorem ax25_textual_roundtrip_witness :
    ax25_to_aprs (aprs_to_ax25
      (mkPacket ⟨"TEST".data, 0, false⟩ ⟨"APRS".data, 0, false⟩
        [⟨"WIDE1".data, 1, false⟩] ">T".data)) =
      some (packetRender
        (mkPacket ⟨"TEST".data, 0, false⟩ ⟨"APRS".data, 0, false⟩
          [⟨"WIDE1".data, 1, false⟩] ">T".data)) :=
  ax25_textual_roundtrip _
    (by decide) (by decide) (by decide) (by decide)
    (by intro h hm
        rcases List.mem_cons.mp hm with rfl | hm2
        · exact ⟨by decide, by decide⟩
        · cases hm2)
    (by decide)

end Aprstx
